import Mathlib

/-!
Shallow embedding of the `mreports` package (source files
`src/mreports/notebook.py` and `src/mreports/htmlmod.py`) together with
proofs about the behaviour of the embedded code.

Pure fragments of the Python source are translated into Lean functions;
code that raises exceptions is translated into `Except PyErr`-valued
functions; the in-place mutation performed by the notebook assembler is
translated into explicit state passing.
-/

namespace Mreports

/-- Python exceptions raised by the embedded code. -/
inductive PyErr where
  | valueError (msg : String)
  | attributeError (msg : String)
deriving DecidableEq, Repr

/-- Embeds `notebook.Cell` (notebook.py, lines 38-77): a notebook cell with
`text`, `type` (the validated `celltype` argument) and `tags`.  The derived
field `self.meta` is exposed as `Cell.meta` below, and the stored
`self.__hash` as `Cell.hashInput`. -/
structure Cell where
  text : String
  type : String
  tags : List String
deriving DecidableEq, Repr

/-- Embeds the `self.meta` dictionary set by `Cell.__init__` (notebook.py,
lines 67-69): `{"tags": tags}` when the tag list is non-empty, else `{}`. -/
def Cell.meta (c : Cell) : List (String × List String) :=
  if c.tags.length > 0 then [("tags", c.tags)] else []

/-- The string whose Python hash `Cell.__init__` stores as `self.__hash`
(notebook.py, line 70): `self.text + self.type + "".join(self.tags)`.
The platform string hash applied to it is an opaque external function, so
the model exposes the hashed string itself: two cells receive equal stored
hashes exactly when their `hashInput`s are equal, up to incidental
collisions of the platform hash function. -/
def Cell.hashInput (c : Cell) : String :=
  c.text ++ c.type ++ String.join c.tags

/-- Embeds `Cell.__init__` (notebook.py, lines 61-70): raises `ValueError`
unless `celltype` is `"markdown"` or `"code"`; on success the constructed
object carries exactly the given text, type and tags. -/
def mkCell (text : String) (celltype : String) (tags : List String) : Except PyErr Cell :=
  if celltype ∈ (["markdown", "code"] : List String) then
    Except.ok { text := text, type := celltype, tags := tags }
  else
    Except.error (.valueError ("Cell type must be any of [markdown, code], was " ++ celltype ++ "."))

/-- A Python runtime value as far as `notebook.flatten` inspects it: either
a non-iterable object (`atom`) or an iterable of further values (`iter`). -/
inductive PyObj where
  | atom (n : Nat)
  | iter (xs : List PyObj)
deriving Repr

/-- Embeds the `while` loop of `notebook.flatten` (notebook.py, lines
27-35): pop the first element of the work list; if it is iterable, extend
the output with its elements (one level only - the loop never revisits the
extended elements), otherwise append it. -/
def flattenBody : List PyObj → List PyObj
  | [] => []
  | .iter ys :: rest => ys ++ flattenBody rest
  | .atom a :: rest => .atom a :: flattenBody rest

/-- Embeds `notebook.flatten` (notebook.py, lines 21-35): a non-iterable
argument is wrapped into a one-element list, an iterable argument is
flattened by one level via the loop embedded as `flattenBody`. -/
def flatten : PyObj → PyObj
  | .atom a => .iter [.atom a]
  | .iter xs => .iter (flattenBody xs)

/-- One step of the flattening: an iterable element contributes its own
elements unchanged (any iterables inside them stay nested), a non-iterable
element contributes itself. -/
def expandOne : PyObj → List PyObj
  | .atom a => [.atom a]
  | .iter ys => ys

theorem flattenBody_eq_flatMap (xs : List PyObj) : flattenBody xs = xs.flatMap expandOne := by
  induction xs with
  | nil => rfl
  | cons x rest ih =>
    cases x with
    | atom a => simp [flattenBody, expandOne, ih]
    | iter ys => simp [flattenBody, expandOne, ih]

/-- Claim C10: `flatten` removes exactly one level of nesting: a
non-iterable input is returned as a one-element list; for an iterable
input every element is expanded by one level (`expandOne`), with iterables
nested inside an expanded element kept as they are; and `flatten` is not
recursive - there is a doubly nested input on which applying `flatten`
twice differs from applying it once. -/
theorem C10_flatten_one_level :
    (∀ n, flatten (PyObj.atom n) = PyObj.iter [PyObj.atom n]) ∧
    (∀ xs, flatten (PyObj.iter xs) = PyObj.iter (xs.flatMap expandOne)) ∧
    (∀ ys, expandOne (PyObj.iter ys) = ys) ∧
    (∃ x, flatten (flatten x) ≠ flatten x) := by
  refine ⟨fun n => rfl, fun xs => ?_, fun ys => rfl, ?_⟩
  · simp [flatten, flattenBody_eq_flatMap]
  · exact ⟨PyObj.iter [PyObj.iter [PyObj.iter [PyObj.atom 1]]], by simp [flatten, flattenBody]⟩

/-- Claim C9: constructing a `Cell` fails with a `ValueError` if and only
if the given kind is neither `"markdown"` nor `"code"`; for the two
recognized kinds construction succeeds and returns exactly the cell built
from the given triple, so no partially-valid cell ever reaches the
caller. -/
theorem C9_cell_kind_validation (t k : String) (tg : List String) :
    ((∃ c, mkCell t k tg = Except.ok c) ↔ (k = "markdown" ∨ k = "code")) ∧
    ((k = "markdown" ∨ k = "code") → mkCell t k tg = Except.ok ⟨t, k, tg⟩) ∧
    (¬(k = "markdown" ∨ k = "code") →
      mkCell t k tg =
        Except.error (.valueError ("Cell type must be any of [markdown, code], was " ++ k ++ "."))) := by
  have hiff : k ∈ (["markdown", "code"] : List String) ↔ (k = "markdown" ∨ k = "code") := by
    simp
  unfold mkCell
  by_cases h : k = "markdown" ∨ k = "code"
  · rw [if_pos (hiff.mpr h)]
    exact ⟨⟨fun _ => h, fun _ => ⟨_, rfl⟩⟩, fun _ => rfl, fun hn => absurd h hn⟩
  · rw [if_neg (fun hm => h (hiff.mp hm))]
    refine ⟨⟨?_, fun hh => absurd hh h⟩, fun hh => absurd hh h, fun _ => rfl⟩
    rintro ⟨c, hc⟩
    simp at hc

/-- Witness for C9 at concrete inputs: a markdown cell is constructed as
given, an unrecognized kind is rejected. -/
theorem C9_cell_kind_validation_witness :
    mkCell "x" "markdown" [] = Except.ok ⟨"x", "markdown", []⟩ ∧
    mkCell "x" "bogus" [] =
      Except.error (.valueError ("Cell type must be any of [markdown, code], was " ++ "bogus" ++ ".")) :=
  ⟨(C9_cell_kind_validation "x" "markdown" []).2.1 (Or.inl rfl),
   (C9_cell_kind_validation "x" "bogus" []).2.2 (by decide)⟩

/-- Counterexample to claim C2 as stated: the two cells built from the
triples `("x", "code", ["ab"])` and `("x", "code", ["a", "b"])` differ
only in their tags, yet the strings fed to the hash function coincide, so
their stored hashes are equal for every choice of the underlying hash
function - not an incidental collision. -/
theorem C2_tags_collision_counterexample :
    (Cell.mk "x" "code" ["ab"]).tags ≠ (Cell.mk "x" "code" ["a", "b"]).tags ∧
    (Cell.mk "x" "code" ["ab"]).text = (Cell.mk "x" "code" ["a", "b"]).text ∧
    (Cell.mk "x" "code" ["ab"]).type = (Cell.mk "x" "code" ["a", "b"]).type ∧
    (Cell.mk "x" "code" ["ab"]).hashInput = (Cell.mk "x" "code" ["a", "b"]).hashInput := by
  exact ⟨by decide, rfl, rfl, by decide⟩

/-- Claim C2 as amended: the stored hash is a deterministic pure function
of `(text, kind, tags)` - equal triples give equal hashed strings;
changing the text alone, or the kind alone between the two valid kinds,
changes the hashed string; changing the tags alone changes it exactly when
the concatenation of the tags changes (distinct tag lists with equal
concatenation collide deterministically). -/
theorem C2_fingerprint_amended :
    (∀ c c' : Cell, c.text = c'.text → c.type = c'.type → c.tags = c'.tags →
      c.hashInput = c'.hashInput) ∧
    (∀ (t t' k : String) (tg : List String), t ≠ t' →
      Cell.hashInput ⟨t, k, tg⟩ ≠ Cell.hashInput ⟨t', k, tg⟩) ∧
    (∀ (t : String) (tg : List String),
      Cell.hashInput ⟨t, "markdown", tg⟩ ≠ Cell.hashInput ⟨t, "code", tg⟩) ∧
    (∀ (t k : String) (tg tg' : List String), String.join tg ≠ String.join tg' →
      Cell.hashInput ⟨t, k, tg⟩ ≠ Cell.hashInput ⟨t, k, tg'⟩) := by
  refine ⟨?_, ?_, ?_, ?_⟩
  · intro c c' h1 h2 h3
    unfold Cell.hashInput
    rw [h1, h2, h3]
  · intro t t' k tg hne h
    apply hne
    have hd := congrArg String.data h
    simp only [Cell.hashInput, String.data_append, List.append_assoc] at hd
    exact String.ext (List.append_cancel_right hd)
  · intro t tg h
    have hl := congrArg String.length h
    simp only [Cell.hashInput, String.length_append] at hl
    have h8 : ("markdown" : String).length = 8 := rfl
    have h4 : ("code" : String).length = 4 := rfl
    omega
  · intro t k tg tg' hne h
    apply hne
    have hd := congrArg String.data h
    simp only [Cell.hashInput, String.data_append, List.append_assoc] at hd
    exact String.ext (List.append_cancel_left (List.append_cancel_left hd))

/-- Witness for C2 (amended) at concrete inputs: determinism on equal
triples, and hash-input changes under a text change, a kind change, and a
concatenation-changing tag change. -/
theorem C2_fingerprint_amended_witness :
    (Cell.mk "a" "code" ["t"]).hashInput = (Cell.mk "a" "code" ["t"]).hashInput ∧
    Cell.hashInput ⟨"a", "code", []⟩ ≠ Cell.hashInput ⟨"b", "code", []⟩ ∧
    Cell.hashInput ⟨"a", "markdown", []⟩ ≠ Cell.hashInput ⟨"a", "code", []⟩ ∧
    Cell.hashInput ⟨"a", "code", ["t"]⟩ ≠ Cell.hashInput ⟨"a", "code", ["u"]⟩ :=
  ⟨C2_fingerprint_amended.1 _ _ rfl rfl rfl,
   C2_fingerprint_amended.2.1 "a" "b" "code" [] (by decide),
   C2_fingerprint_amended.2.2.1 "a" [],
   C2_fingerprint_amended.2.2.2 "a" "code" ["t"] ["u"] (by decide)⟩

/-- Length of the longest common component prefix of two paths; embeds the
`os.path.commonprefix` step inside CPython's `posixpath.relpath`.  An
absolute, filesystem-resolved POSIX path is modelled throughout by its
list of components. -/
def commonPrefixLen : List String → List String → Nat
  | x :: xs, y :: ys => if x = y then commonPrefixLen xs ys + 1 else 0
  | _, _ => 0

/-- Embeds CPython's `posixpath.relpath(path, start)` on absolute,
already-normalized component lists: the `i` common leading components are
dropped, one `".."` is emitted for every remaining component of `start`,
the remaining components of `path` are appended, and an empty result
becomes `["."]` (`os.curdir`). -/
def relpath (path start : List String) : List String :=
  let i := commonPrefixLen start path
  let rel := List.replicate (start.length - i) ".." ++ path.drop i
  if rel = [] then ["."] else rel

/-- Embeds `ReportPathModifier.resolve_path` (htmlmod.py, lines 334-356):
`os.path.relpath(result_path.resolve(), report_path.resolve())`, with both
arguments given as the component lists of their already `resolve()`d
(absolute, symlink-free, normalized) forms. -/
def resolve_path (report_path result_path : List String) : List String :=
  relpath result_path report_path

/-- Lexical normalization of a relative component list against an absolute
base path: `"."` components are skipped, `".."` pops the last component of
the base, any other component is appended.  For symlink-free endpoints
this is exactly what "joining the relative result to the report directory
and normalizing" denotes. -/
def normJoin (base : List String) : List String → List String
  | [] => base
  | c :: rest =>
    if c = "." then normJoin base rest
    else if c = ".." then normJoin base.dropLast rest
    else normJoin (base ++ [c]) rest

/-- `k` applications of `List.dropLast`. -/
def popN : Nat → List String → List String
  | 0, xs => xs
  | k + 1, xs => popN k xs.dropLast

theorem commonPrefixLen_le_left : ∀ xs ys : List String, commonPrefixLen xs ys ≤ xs.length := by
  intro xs
  induction xs with
  | nil => intro ys; cases ys <;> simp [commonPrefixLen]
  | cons x xs ih =>
    intro ys
    cases ys with
    | nil => simp [commonPrefixLen]
    | cons y ys =>
      by_cases h : x = y
      · simpa [commonPrefixLen, h] using ih ys
      · simp [commonPrefixLen, h]

theorem commonPrefixLen_le_right : ∀ xs ys : List String, commonPrefixLen xs ys ≤ ys.length := by
  intro xs
  induction xs with
  | nil => intro ys; cases ys <;> simp [commonPrefixLen]
  | cons x xs ih =>
    intro ys
    cases ys with
    | nil => simp [commonPrefixLen]
    | cons y ys =>
      by_cases h : x = y
      · simpa [commonPrefixLen, h] using ih ys
      · simp [commonPrefixLen, h]

theorem take_commonPrefixLen_eq :
    ∀ xs ys : List String, xs.take (commonPrefixLen xs ys) = ys.take (commonPrefixLen xs ys) := by
  intro xs
  induction xs with
  | nil => intro ys; cases ys <;> simp [commonPrefixLen]
  | cons x xs ih =>
    intro ys
    cases ys with
    | nil => simp [commonPrefixLen]
    | cons y ys =>
      by_cases h : x = y
      · simp [commonPrefixLen, h, ih ys]
      · simp [commonPrefixLen, h]

theorem normJoin_dot (base rest : List String) : normJoin base ("." :: rest) = normJoin base rest := by
  simp [normJoin]

theorem normJoin_dotdot (base rest : List String) :
    normJoin base (".." :: rest) = normJoin base.dropLast rest := by
  simp [normJoin]

theorem normJoin_name (base : List String) (c : String) (rest : List String)
    (h1 : c ≠ ".") (h2 : c ≠ "..") :
    normJoin base (c :: rest) = normJoin (base ++ [c]) rest := by
  simp only [normJoin]
  rw [if_neg h1, if_neg h2]

theorem normJoin_replicate_dotdot (k : Nat) :
    ∀ base rest : List String,
      normJoin base (List.replicate k ".." ++ rest) = normJoin (popN k base) rest := by
  induction k with
  | zero => intro base rest; rfl
  | succ k ih =>
    intro base rest
    rw [List.replicate_succ, List.cons_append, normJoin_dotdot, ih]
    rfl

theorem popN_eq_take :
    ∀ (k : Nat) (xs : List String), k ≤ xs.length → popN k xs = xs.take (xs.length - k) := by
  intro k
  induction k with
  | zero => intro xs _; simp [popN]
  | succ k ih =>
    intro xs h
    have hlen : xs.dropLast.length = xs.length - 1 := by simp
    have hk : k ≤ xs.dropLast.length := by omega
    rw [popN, ih xs.dropLast hk, hlen, List.dropLast_eq_take, List.take_take]
    have h2 : min (xs.length - 1 - k) (xs.length - 1) = xs.length - (k + 1) := by omega
    rw [h2]

theorem normJoin_names (rest : List String) (hrest : ∀ c ∈ rest, c ≠ "." ∧ c ≠ "..") :
    ∀ base : List String, normJoin base rest = base ++ rest := by
  induction rest with
  | nil => intro base; simp [normJoin]
  | cons c rest ih =>
    intro base
    have hc := hrest c (by simp)
    rw [normJoin_name base c rest hc.1 hc.2,
      ih (fun d hd => hrest d (by simp [hd])) (base ++ [c])]
    simp

/-- Claim C3: for every resolved report directory `R` and resolved
resource path `P` (absolute, symlink-free component lists, so no component
is `"."` or `".."`), the relative path returned by
`ReportPathModifier.resolve_path`, when joined to `R` and normalized,
denotes exactly `P`; in particular `R = /tmp/report/test` and
`P = /tmp/data/test.html` give `../../data/test.html`. -/
theorem C3_resolve_path_correct (report result : List String)
    (hres : ∀ c ∈ result, c ≠ "." ∧ c ≠ "..") :
    normJoin report (resolve_path report result) = result ∧
    resolve_path ["tmp", "report", "test"] ["tmp", "data", "test.html"] =
      ["..", "..", "data", "test.html"] := by
  refine ⟨?_, by decide⟩
  unfold resolve_path relpath
  by_cases hnil : List.replicate (report.length - commonPrefixLen report result) ".." ++
      result.drop (commonPrefixLen report result) = ([] : List String)
  · rw [if_pos hnil]
    rcases List.append_eq_nil.mp hnil with ⟨hrep, hdrop⟩
    have hle1 := commonPrefixLen_le_left report result
    have hle2 := commonPrefixLen_le_right report result
    have hrep0 : report.length - commonPrefixLen report result = 0 := by
      have hl := congrArg List.length hrep
      simpa using hl
    have hdroplen := congrArg List.length hdrop
    simp only [List.length_drop, List.length_nil] at hdroplen
    have hi1 : commonPrefixLen report result = report.length := by omega
    have hlen12 : report.length = result.length := by omega
    have h1 := take_commonPrefixLen_eq report result
    rw [hi1, List.take_length, hlen12, List.take_length] at h1
    rw [normJoin_dot]
    exact h1
  · rw [if_neg hnil]
    have hle1 := commonPrefixLen_le_left report result
    rw [normJoin_replicate_dotdot, popN_eq_take _ _ (by omega)]
    have hi : report.length - (report.length - commonPrefixLen report result) =
        commonPrefixLen report result := by omega
    rw [hi, take_commonPrefixLen_eq report result,
      normJoin_names _ (fun c hc => hres c (List.drop_subset _ _ hc))]
    exact List.take_append_drop _ result

/-- Witness for C3 at the spec's concrete example: the report directory
`/tmp/report/test` and resource `/tmp/data/test.html` give the relative
path `../../data/test.html`, which joins back to the resource. -/
theorem C3_resolve_path_witness :
    normJoin ["tmp", "report", "test"]
        (resolve_path ["tmp", "report", "test"] ["tmp", "data", "test.html"]) =
      ["tmp", "data", "test.html"] :=
  (C3_resolve_path_correct ["tmp", "report", "test"] ["tmp", "data", "test.html"]
    (by decide)).1

/-- A node of a parsed HTML document, as far as the link-rewriting code
inspects it: an anchor element (what `soup.find_all("a")` returns)
carrying its `href` attribute, or any other content. -/
inductive Node where
  | anchor (href : String)
  | other (content : String)
deriving DecidableEq, Repr

/-- Embeds `LinkModifier.modify_soup` (htmlmod.py, lines 241-276): walk
the document; for every anchor whose `href` the matcher accepts, replace
the `href` by `str(self.modify_link(Path(href)))` - the caller-supplied
rewrite function applied to the href as a path - and leave every other
node untouched.  (The `soup is None` precondition check of line 269 is
outside the model: the document is given.) -/
def modify_soup (soup : List Node) (link_matched : String → Bool)
    (modify_link : String → String) : List Node :=
  match soup with
  | [] => []
  | .anchor href :: rest =>
    (if link_matched href then Node.anchor (modify_link href) else Node.anchor href)
      :: modify_soup rest link_matched modify_link
  | .other c :: rest => Node.other c :: modify_soup rest link_matched modify_link

/-- Claim C5: `modify_soup` replaces the href of exactly those anchors
whose href satisfies the predicate, substituting the rewrite function's
output, and returns every non-matching anchor and every non-anchor node
unchanged, preserving positions. -/
theorem C5_modify_soup_exact (soup : List Node) (m : String → Bool) (f : String → String) :
    (modify_soup soup m f).length = soup.length ∧
    ∀ i : Nat, (modify_soup soup m f)[i]? = Option.map
      (fun n : Node =>
        match n with
        | .anchor href => if m href then Node.anchor (f href) else Node.anchor href
        | .other c => Node.other c)
      soup[i]? := by
  constructor
  · induction soup with
    | nil => rfl
    | cons x rest ih => cases x <;> simp [modify_soup, ih]
  · induction soup with
    | nil => intro i; simp [modify_soup]
    | cons x rest ih =>
      intro i
      cases x with
      | anchor href =>
        cases i with
        | zero => simp [modify_soup]
        | succ n => simpa [modify_soup] using ih n
      | other c =>
        cases i with
        | zero => simp [modify_soup]
        | succ n => simpa [modify_soup] using ih n

/-- Embeds the Python substring test `needle in hay` on strings: `true`
when the needle's characters occur contiguously inside the hay. -/
def isPrefixB : List Char → List Char → Bool
  | [], _ => true
  | _ :: _, [] => false
  | a :: xs, b :: ys => a == b && isPrefixB xs ys

def isInfixB (needle : List Char) : List Char → Bool
  | [] => isPrefixB needle []
  | b :: rest => isPrefixB needle (b :: rest) || isInfixB needle rest

/-- The Python expression `sub in s` for strings. -/
def pyIn (sub s : String) : Bool := isInfixB sub.data s.data

/-- Embeds `str(Path(href).parent)` (pathlib) for slash-separated hrefs
without trailing or duplicated slashes: everything before the last slash.
`takeBeforeLastSlash` returns `none` when no slash occurs, in which case
the parent is `"."`. -/
def takeBeforeLastSlash : List Char → Option (List Char)
  | [] => none
  | c :: rest =>
    match takeBeforeLastSlash rest with
    | some pre => some (c :: pre)
    | none => if c = '/' then some [] else none

def pathParent (p : String) : String :=
  match takeBeforeLastSlash p.data with
  | some pre => if pre = [] then "/" else String.mk pre
  | none => "."

instance {ε α : Type} [DecidableEq ε] [DecidableEq α] : DecidableEq (Except ε α) := fun x y =>
  match x, y with
  | Except.error e, Except.error f =>
    if h : e = f then isTrue (by rw [h]) else isFalse (fun hc => h (Except.error.inj hc))
  | Except.error _, Except.ok _ => isFalse (fun hc => Except.noConfusion hc)
  | Except.ok _, Except.error _ => isFalse (fun hc => Except.noConfusion hc)
  | Except.ok a, Except.ok b =>
    if h : a = b then isTrue (by rw [h]) else isFalse (fun hc => h (Except.ok.inj hc))

/-- The href of the first anchor of the document whose href contains the
sentinel filename `"pos_snapshot.html"`. -/
def firstSentinelHref : List Node → Option String
  | [] => none
  | .anchor href :: rest =>
    if pyIn "pos_snapshot.html" href then some href else firstSentinelHref rest
  | .other _ :: rest => firstSentinelHref rest

/-- Embeds `get_folder_from_gsea_html` (htmlmod.py, lines 417-444): scan
the document's anchors in order; on the first href containing
`"pos_snapshot.html"` return `str(Path(href).parent)`; raise `ValueError`
when no anchor's href contains the sentinel. -/
def get_folder_from_gsea_html : List Node → Except PyErr String
  | [] => .error (.valueError
      "Could not scrape the folder name from html, pos_snapshot.html not found.")
  | .anchor href :: rest =>
    if pyIn "pos_snapshot.html" href then .ok (pathParent href)
    else get_folder_from_gsea_html rest
  | .other _ :: rest => get_folder_from_gsea_html rest

/-- Embeds `GSEAReportPathModifier.get_matcher` (htmlmod.py, lines
395-414): discover the folder name from the document, then accept exactly
the hrefs that contain it. -/
def gsea_get_matcher (doc : List Node) : Except PyErr (String → Bool) :=
  (get_folder_from_gsea_html doc).map (fun folder_name => fun href => pyIn folder_name href)

theorem firstSentinelHref_none_iff (doc : List Node) :
    firstSentinelHref doc = none ↔
      ∀ href, Node.anchor href ∈ doc → pyIn "pos_snapshot.html" href = false := by
  induction doc with
  | nil => simp [firstSentinelHref]
  | cons x rest ih =>
    cases x with
    | anchor href =>
      cases hp : pyIn "pos_snapshot.html" href <;>
        simp [firstSentinelHref, hp, ih]
    | other c => simp [firstSentinelHref, ih]

theorem firstSentinelHref_some (doc : List Node) (h : String)
    (hh : firstSentinelHref doc = some h) :
    Node.anchor h ∈ doc ∧ pyIn "pos_snapshot.html" h = true := by
  induction doc with
  | nil => simp [firstSentinelHref] at hh
  | cons x rest ih =>
    cases x with
    | anchor href =>
      by_cases hp : pyIn "pos_snapshot.html" href = true
      · rw [firstSentinelHref, if_pos hp] at hh
        obtain rfl : href = h := by injection hh
        exact ⟨by simp, hp⟩
      · rw [firstSentinelHref, if_neg hp] at hh
        obtain ⟨hm, hq⟩ := ih hh
        exact ⟨by simp [hm], hq⟩
    | other c =>
      obtain ⟨hm, hq⟩ := ih hh
      exact ⟨by simp [hm], hq⟩

theorem get_folder_eq_firstSentinel (doc : List Node) :
    get_folder_from_gsea_html doc =
      match firstSentinelHref doc with
      | some href => Except.ok (pathParent href)
      | none => Except.error (.valueError
          "Could not scrape the folder name from html, pos_snapshot.html not found.") := by
  induction doc with
  | nil => rfl
  | cons x rest ih =>
    cases x with
    | anchor href =>
      cases hp : pyIn "pos_snapshot.html" href <;>
        simp [get_folder_from_gsea_html, firstSentinelHref, hp, ih]
    | other c => simpa [get_folder_from_gsea_html, firstSentinelHref] using ih

/-- Claim C6: `get_folder_from_gsea_html` returns the parent-directory
name of the first anchor whose href contains the sentinel filename
`"pos_snapshot.html"` (the anchor `"202202231319/pos_snapshot.html"`
yields `"202202231319"`), raises a `ValueError` if and only if no
anchor's href contains the sentinel, and `GSEAReportPathModifier`'s
matcher then accepts exactly the hrefs containing the discovered folder
name. -/
theorem C6_get_folder_spec :
    (∀ doc href, firstSentinelHref doc = some href →
      get_folder_from_gsea_html doc = Except.ok (pathParent href)) ∧
    (∀ doc, (∃ e, get_folder_from_gsea_html doc = Except.error e) ↔
      ∀ href, Node.anchor href ∈ doc → pyIn "pos_snapshot.html" href = false) ∧
    get_folder_from_gsea_html [Node.anchor "202202231319/pos_snapshot.html"] =
      Except.ok "202202231319" ∧
    (∀ doc folder_name, get_folder_from_gsea_html doc = Except.ok folder_name →
      ∃ m, gsea_get_matcher doc = Except.ok m ∧ ∀ href, m href = pyIn folder_name href) := by
  refine ⟨?_, ?_, by decide, ?_⟩
  · intro doc href hh
    rw [get_folder_eq_firstSentinel, hh]
  · intro doc
    rw [← firstSentinelHref_none_iff]
    rw [get_folder_eq_firstSentinel]
    cases hfs : firstSentinelHref doc with
    | none => simp
    | some h => simp
  · intro doc folder_name hok
    refine ⟨_, ?_, fun href => rfl⟩
    rw [gsea_get_matcher, hok]
    rfl

/-- Witness for C6 at the spec's concrete sentinel anchor: the folder
`"202202231319"` is discovered, and the derived matcher tests hrefs for
that folder name. -/
theorem C6_get_folder_witness :
    ∃ m, gsea_get_matcher [Node.anchor "202202231319/pos_snapshot.html"] = Except.ok m ∧
      ∀ href, m href = pyIn "202202231319" href :=
  C6_get_folder_spec.2.2.2 [Node.anchor "202202231319/pos_snapshot.html"] "202202231319"
    (by decide)

/-- An item's cell-producing payload: the `MarkdownItem` and `CodeItem`
variants (notebook.py, lines 200-227) - the variants whose `cells`
methods are pure functions of the item state.  The stored text is the
final `self.text` set by the variant's constructor. -/
inductive ItemKind where
  | markdownItem (text : String)
  | codeItem (text : String)
deriving DecidableEq, Repr

/-- Embeds the state of a registered `Item` (notebook.py, lines 80-136):
its section name (`self.section`; the field is renamed because `section`
is a Lean keyword), its mutable tag list (`self._tags`), the color flag
and the dependency job ids.  `register_item` and `__make_ordered_list`
read only these fields and `cells`, so the payload is restricted to the
modelled variants. -/
structure Item where
  sectionName : String
  tags : List String
  color : Bool
  dependencies : List String
  kind : ItemKind
deriving DecidableEq, Repr

/-- Embeds `Item.add_tag` (notebook.py, lines 120-121): append a tag to
the item's mutable `_tags` list. -/
def Item.add_tag (it : Item) (tag : String) : Item :=
  { it with tags := it.tags ++ [tag] }

/-- Embeds `Item.cells` for the modelled variants, as invoked by
`__make_ordered_list` with the default `tags=[]` argument:
`MarkdownItem.cells` returns one markdown cell tagged with the item's
tags (notebook.py, lines 215-217); `CodeItem.cells` returns one code cell
tagged with `tags + self.tags` (lines 225-227). -/
def Item.cells (it : Item) : List Cell :=
  match it.kind with
  | .markdownItem text => [{ text := text, type := "markdown", tags := it.tags }]
  | .codeItem text => [{ text := text, type := "code", tags := [] ++ it.tags }]

/-- Embeds the registration state of `NB` (notebook.py, lines 272-321):
the insertion-ordered section dictionary `self.sections` (modelled as an
association list), the first-registration order `self.section_order`, the
aggregated dependency job ids, and the fixed preamble cells.  The
output-path derivation and the job-graph bookkeeping of `__init__` belong
to external collaborators and are not registration state. -/
structure NB where
  name : String
  project_name : String
  section_order : List String
  sections : List (String × List Item)
  dependencies : List String
  first_cells : List Cell
deriving Repr

/-- Embeds `NB.init_first_cell` (notebook.py, lines 374-398): the three
fixed preamble cells (imports, report heading, table styling). -/
def init_first_cell (project_name : String) : List Cell :=
  [{ text := "from IPython.display import Image\nfrom IPython.display import HTML\n",
     type := "code", tags := [] },
   { text := "## Analysis report for\n## " ++ project_name ++ ".\n        ",
     type := "markdown", tags := [] },
   { text := "%%html\n<style>\n    table \x7b\n        display: inline-block\n    \x7d\n</style>\n",
     type := "code", tags := [] }]

/-- Embeds the registration-state initialization of `NB.__init__`
(notebook.py, lines 289-321): empty sections and section order, the given
starting dependencies, and the preamble cells. -/
def mkNB (name project_name : String) (dependencies : List String) : NB :=
  { name := name, project_name := project_name, section_order := [], sections := [],
    dependencies := dependencies, first_cells := init_first_cell project_name }

/-- The palette `NB.colors` (notebook.py, lines 323-331): a fixed
document-global dictionary with keys `0..6`, modelled positionally. -/
def colors : List String :=
  ["green", "blue", "orange", "red", "yellow", "cyan", "purple"]

/-- Embeds `NB.get_color_tag` (notebook.py, lines 333-337) for a section
present in `section_order` (on an absent section Python's `list.index`
raises, which no caller triggers): take the section's index, reduce it
modulo the palette size once it reaches the palette size, and return that
color. -/
def get_color_tag (section_order : List String) (s : String) : String :=
  colors.getD
    (if section_order.indexOf s ≥ colors.length
     then section_order.indexOf s % colors.length
     else section_order.indexOf s) ""

/-- Python dict membership test and lookup `self.sections[key]` on the
insertion-ordered association list. -/
def secLookup : List (String × List Item) → String → Option (List Item)
  | [], _ => none
  | (k, b) :: rest, s => if k = s then some b else secLookup rest s

/-- The dict mutation `self.sections[key].append(item)`. -/
def secAppend : List (String × List Item) → String → Item → List (String × List Item)
  | [], _, _ => []
  | (k, b) :: rest, s, it =>
    if k = s then (k, b ++ [it]) :: rest else (k, b) :: secAppend rest s it

/-- The dict mutation `self.sections[key] = bucket`. -/
def secSet : List (String × List Item) → String → List Item → List (String × List Item)
  | [], _, _ => []
  | (k, b) :: rest, s, b2 => if k = s then (k, b2) :: rest else (k, b) :: secSet rest s b2

/-- Embeds `NB.register_item` (notebook.py, lines 343-349): a first
registration into a section appends the section name to `section_order`
and creates an empty bucket; the item is then appended to its section's
bucket, and its dependencies are merged (`add_dependencies` with a list
argument extends, lines 351-357). -/
def register_item (nb : NB) (item : Item) : NB :=
  let nb :=
    if secLookup nb.sections item.sectionName = none then
      { nb with section_order := nb.section_order ++ [item.sectionName],
                sections := nb.sections ++ [(item.sectionName, [])] }
    else nb
  { nb with sections := secAppend nb.sections item.sectionName item,
            dependencies := nb.dependencies ++ item.dependencies }

/-- One run of the inner loop of `NB.__make_ordered_list` (notebook.py,
lines 476-481) over a section's bucket: when `item.color` is set,
`item.add_tag(self.get_color_tag(section))` mutates the stored item, then
`item.cells(...)` produces its cells.  Returns the produced cells and the
mutated bucket. -/
def processBucket (section_order : List String) (s : String) :
    List Item → List Cell × List Item
  | [] => ([], [])
  | it :: rest =>
    let it := if it.color then it.add_tag (get_color_tag section_order s) else it
    let r := processBucket section_order s rest
    (it.cells ++ r.1, it :: r.2)

/-- The outer loop of `NB.__make_ordered_list` (notebook.py, lines
475-481) over `section_order`, threading the mutated section buckets. -/
def processSections (section_order : List String) :
    List (String × List Item) → List String → List Cell × List (String × List Item)
  | secs, [] => (([] : List Cell), secs)
  | secs, s :: rest =>
    let bucket := (secLookup secs s).getD []
    let r := processBucket section_order s bucket
    let secs := secSet secs s r.2
    let r2 := processSections section_order secs rest
    (r.1 ++ r2.1, r2.2)

/-- Embeds `NB.__make_ordered_list` (notebook.py, lines 472-482): the
preamble cells followed by every section's items' cells in registration
order; the in-place tag mutation of the items is returned as the updated
assembler state. -/
def make_ordered_list (nb : NB) : List Cell × NB :=
  let r := processSections nb.section_order nb.sections nb.section_order
  (nb.first_cells ++ r.1, { nb with sections := r.2 })

/-- A markdown item registered into section `"A"` with `color=True`. -/
def c1_item : Item :=
  { sectionName := "A", tags := [], color := true, dependencies := [],
    kind := .markdownItem "hello" }

/-- An assembler holding exactly `c1_item` and no further registrations. -/
def c1_nb : NB := register_item (mkNB "report" "proj" []) c1_item

/-- Claim C1 fails on the code (code bug): with no registration changes
between two builds, building the ordered cell list twice does not yield
the same cell sequence, because `__make_ordered_list` calls
`item.add_tag(color)` on every build, appending the section color tag
again to the registered item's mutable tag list.  On an assembler holding
one colored markdown item, the first build's cells carry the tag lists
`[[], [], [], ["green"]]`, the second build's
`[[], [], [], ["green", "green"]]`; the cell texts agree but the tag
lists and the fingerprint logs differ. -/
theorem C1_second_build_duplicates_color_tag :
    (make_ordered_list c1_nb).1.map Cell.tags = [[], [], [], ["green"]] ∧
    (make_ordered_list (make_ordered_list c1_nb).2).1.map Cell.tags =
      [[], [], [], ["green", "green"]] ∧
    (make_ordered_list c1_nb).1.map Cell.text =
      (make_ordered_list (make_ordered_list c1_nb).2).1.map Cell.text ∧
    (make_ordered_list c1_nb).1.map Cell.hashInput ≠
      (make_ordered_list (make_ordered_list c1_nb).2).1.map Cell.hashInput := by
  refine ⟨by decide, by decide, by decide, by decide⟩

/-- Claim C8: the palette is a fixed document-global constant of 7
colors, and for a section present in `section_order`, `get_color_tag`
returns the palette entry at the section's index modulo the palette size,
so colors repeat cyclically once the number of sections exceeds the
palette size. -/
theorem C8_get_color_tag_cyclic (section_order : List String) (s : String)
    (_hmem : s ∈ section_order) :
    colors.length = 7 ∧
    get_color_tag section_order s =
      colors.getD (section_order.indexOf s % colors.length) "" := by
  refine ⟨rfl, ?_⟩
  unfold get_color_tag
  by_cases h : section_order.indexOf s ≥ colors.length
  · rw [if_pos h]
  · rw [if_neg h, Nat.mod_eq_of_lt (by omega)]

/-- Witness for C8 on a concrete order of 8 sections: the 8th section
wraps around to palette index `7 % 7 = 0`. -/
theorem C8_get_color_tag_witness :
    colors.length = 7 ∧
    get_color_tag ["s0", "s1", "s2", "s3", "s4", "s5", "s6", "s7"] "s7" =
      colors.getD
        (List.indexOf "s7" ["s0", "s1", "s2", "s3", "s4", "s5", "s6", "s7"] % colors.length)
        "" :=
  C8_get_color_tag_cyclic ["s0", "s1", "s2", "s3", "s4", "s5", "s6", "s7"] "s7" (by decide)

/-- A build-graph producer argument to `PlotItem`: a job carrying its
output files, or a (possibly nested) collection of producers. -/
inductive JobTree where
  | job (id : String) (files : List String)
  | coll (jobs : List JobTree)
deriving Repr

/-- Embeds the object state that a successful return of
`PlotItem.__init__` leaves behind (notebook.py, lines 140-175): the
`Item` fields set by `super().__init__` plus `self.text`.  The
constructor computes a local variable `jobs` (lines 168-171) but never
assigns `self.job`, so the constructed object carries no `job`
attribute. -/
structure PlotItem where
  sectionName : String
  tags : List String
  color : Bool
  dependencies : JobTree
  text : String
deriving Repr

/-- Embeds `PlotItem.__init__` (notebook.py, lines 140-175).  With
`text=None`, the default caption `f"Result from : {self.job.job_id}"` of
line 175 reads `self.job`, which was never assigned, so construction
raises `AttributeError`; with an explicit caption the object is
returned. -/
def plotItem_init (sectionName : String) (job : JobTree) (text : Option String)
    (tags : List String) (color : Bool) : Except PyErr PlotItem :=
  match text with
  | none => .error (.attributeError "PlotItem object has no attribute job")
  | some t =>
    .ok { sectionName := sectionName, tags := tags, color := color,
          dependencies := job, text := t }

/-- Embeds `PlotItem.cells` (notebook.py, lines 177-197): after appending
the caption cell, line 180 evaluates `flatten(self.job)`; since no
constructed `PlotItem` carries a `job` attribute, the call raises
`AttributeError` before anything is returned. -/
def plotItem_cells (_ : PlotItem) (_result_dir : String) : Except PyErr (List Cell) :=
  .error (.attributeError "PlotItem object has no attribute job")

/-- Claim C7 fails on the code (code bug): `PlotItem.__init__` computes a
local producer list but never assigns `self.job`, so for every producer
argument, caption, tag list and result directory, constructing a
`PlotItem` and asking it for its cells never yields the caption cell and
image-display code cell: with a default caption the constructor itself
raises `AttributeError`, and with an explicit caption `cells` raises
`AttributeError` at `flatten(self.job)`. -/
theorem C7_plotitem_cells_attribute_error (sec : String) (job : JobTree)
    (text : Option String) (tags : List String) (color : Bool) (result_dir : String) :
    (plotItem_init sec job text tags color >>= fun it => plotItem_cells it result_dir) =
      Except.error (.attributeError "PlotItem object has no attribute job") := by
  cases text <;> rfl

theorem secLookup_none_iff (secs : List (String × List Item)) (s : String) :
    secLookup secs s = none ↔ s ∉ secs.map Prod.fst := by
  induction secs with
  | nil => simp [secLookup]
  | cons p rest ih =>
    obtain ⟨k, b⟩ := p
    by_cases h : k = s
    · subst h; simp [secLookup]
    · simp [secLookup, h, ih, Ne.symm h]

theorem secAppend_keys (secs : List (String × List Item)) (key : String) (it : Item) :
    (secAppend secs key it).map Prod.fst = secs.map Prod.fst := by
  induction secs with
  | nil => rfl
  | cons p rest ih =>
    obtain ⟨k, b⟩ := p
    by_cases h : k = key <;> simp [secAppend, h, ih]

theorem secAppend_lookup (secs : List (String × List Item)) (key : String) (it : Item)
    (s : String) :
    secLookup (secAppend secs key it) s =
      if s = key then (secLookup secs s).map (fun b => b ++ [it]) else secLookup secs s := by
  induction secs with
  | nil => by_cases h : s = key <;> simp [secAppend, secLookup, h]
  | cons p rest ih =>
    obtain ⟨k, b⟩ := p
    by_cases hk : k = key
    · subst hk
      by_cases hs : k = s
      · subst hs
        simp [secAppend, secLookup]
      · have hs' : ¬s = k := fun h => hs h.symm
        simp [secAppend, secLookup, hs, hs']
    · by_cases hs : k = s
      · subst hs
        simp [secAppend, secLookup, hk]
      · simp [secAppend, secLookup, hk, hs, ih]

theorem secLookup_append (xs ys : List (String × List Item)) (s : String) :
    secLookup (xs ++ ys) s =
      match secLookup xs s with
      | some b => some b
      | none => secLookup ys s := by
  induction xs with
  | nil => simp [secLookup]
  | cons p rest ih =>
    obtain ⟨k, b⟩ := p
    by_cases h : k = s <;> simp [secLookup, h, ih]

theorem register_item_spec (nb : NB) (it : Item) :
    ((register_item nb it).section_order =
      if secLookup nb.sections it.sectionName = none
      then nb.section_order ++ [it.sectionName] else nb.section_order) ∧
    ((register_item nb it).sections.map Prod.fst =
      if secLookup nb.sections it.sectionName = none
      then nb.sections.map Prod.fst ++ [it.sectionName] else nb.sections.map Prod.fst) ∧
    (∀ s, (secLookup (register_item nb it).sections s).getD [] =
      (secLookup nb.sections s).getD [] ++ (if s = it.sectionName then [it] else [])) := by
  by_cases hnone : secLookup nb.sections it.sectionName = none
  · refine ⟨by simp [register_item, hnone], ?_, ?_⟩
    · simp [register_item, hnone, secAppend_keys]
    · intro s
      have hreg : (register_item nb it).sections =
          secAppend (nb.sections ++ [(it.sectionName, [])]) it.sectionName it := by
        simp [register_item, hnone]
      rw [hreg, secAppend_lookup, secLookup_append]
      by_cases hs : s = it.sectionName
      · subst hs
        rw [if_pos rfl, if_pos rfl, hnone]
        simp [secLookup]
      · rw [if_neg hs, if_neg hs]
        cases hx : secLookup nb.sections s with
        | some b => simp
        | none =>
          have hks : ¬it.sectionName = s := fun h => hs h.symm
          simp [secLookup, hks]
  · refine ⟨by simp [register_item, hnone], ?_, ?_⟩
    · simp [register_item, hnone, secAppend_keys]
    · intro s
      have hreg : (register_item nb it).sections = secAppend nb.sections it.sectionName it := by
        simp [register_item, hnone]
      rw [hreg, secAppend_lookup]
      by_cases hs : s = it.sectionName
      · subst hs
        cases hx : secLookup nb.sections it.sectionName with
        | none => exact absurd hx hnone
        | some b => rw [if_pos rfl, if_pos rfl]; simp
      · rw [if_neg hs, if_neg hs]
        simp

/-- Each element of the second list that is neither in `seen` nor earlier
in the list, once, in first-occurrence order. -/
def firstOccAux (seen : List String) : List String → List String
  | [] => []
  | s :: rest =>
    if s ∈ seen then firstOccAux seen rest else s :: firstOccAux (seen ++ [s]) rest

theorem firstOccAux_mem_not_seen :
    ∀ (l seen : List String) (s : String), s ∈ firstOccAux seen l → s ∉ seen := by
  intro l
  induction l with
  | nil => intro seen s hs; simp [firstOccAux] at hs
  | cons x rest ih =>
    intro seen s hs
    rw [firstOccAux] at hs
    by_cases hx : x ∈ seen
    · rw [if_pos hx] at hs; exact ih seen s hs
    · rw [if_neg hx] at hs
      rcases List.mem_cons.mp hs with rfl | hs'
      · exact hx
      · intro hseen
        exact ih (seen ++ [x]) s hs' (by simp [hseen])

theorem firstOccAux_nodup : ∀ (l seen : List String), (firstOccAux seen l).Nodup := by
  intro l
  induction l with
  | nil => intro seen; simp [firstOccAux]
  | cons x rest ih =>
    intro seen
    rw [firstOccAux]
    by_cases hx : x ∈ seen
    · rw [if_pos hx]; exact ih seen
    · rw [if_neg hx]
      refine List.nodup_cons.mpr ⟨?_, ih (seen ++ [x])⟩
      intro hmem
      exact firstOccAux_mem_not_seen rest (seen ++ [x]) x hmem (by simp)

theorem registerAll_spec :
    ∀ (items : List Item) (nb : NB),
      nb.sections.map Prod.fst = nb.section_order →
      ((items.foldl register_item nb).sections.map Prod.fst =
        (items.foldl register_item nb).section_order) ∧
      ((items.foldl register_item nb).section_order =
        nb.section_order ++ firstOccAux nb.section_order (items.map Item.sectionName)) ∧
      (∀ s, (secLookup (items.foldl register_item nb).sections s).getD [] =
        (secLookup nb.sections s).getD [] ++ items.filter (fun x => x.sectionName = s)) := by
  intro items
  induction items with
  | nil =>
    intro nb hinv
    exact ⟨hinv, by simp [firstOccAux], fun s => by simp⟩
  | cons it rest ih =>
    intro nb hinv
    obtain ⟨ho, hk, hb⟩ := register_item_spec nb it
    by_cases hnone : secLookup nb.sections it.sectionName = none
    · have hmem : it.sectionName ∉ nb.section_order := by
        rw [← hinv]; exact (secLookup_none_iff _ _).mp hnone
      rw [if_pos hnone] at ho hk
      have hinv' : (register_item nb it).sections.map Prod.fst =
          (register_item nb it).section_order := by rw [hk, ho, hinv]
      obtain ⟨g1, g2, g3⟩ := ih (register_item nb it) hinv'
      simp only [List.foldl_cons, List.map_cons]
      refine ⟨g1, ?_, ?_⟩
      · rw [firstOccAux, if_neg hmem, g2, ho]
        simp
      · intro s
        rw [g3 s, hb s, List.filter_cons]
        by_cases hs : it.sectionName = s
        · subst hs; simp
        · simp [hs, Ne.symm hs]
    · have hmem : it.sectionName ∈ nb.section_order := by
        rw [← hinv]
        by_contra hmm
        exact hnone ((secLookup_none_iff _ _).mpr hmm)
      rw [if_neg hnone] at ho hk
      have hinv' : (register_item nb it).sections.map Prod.fst =
          (register_item nb it).section_order := by rw [hk, ho, hinv]
      obtain ⟨g1, g2, g3⟩ := ih (register_item nb it) hinv'
      simp only [List.foldl_cons, List.map_cons]
      refine ⟨g1, ?_, ?_⟩
      · rw [firstOccAux, if_pos hmem, g2, ho]
      · intro s
        rw [g3 s, hb s, List.filter_cons]
        by_cases hs : it.sectionName = s
        · subst hs; simp
        · simp [hs, Ne.symm hs]

/-- Concrete items for the A, B, A registration example of the spec. -/
def c4_itemA1 : Item :=
  { sectionName := "A", tags := [], color := false, dependencies := [],
    kind := .markdownItem "a1" }

def c4_itemB : Item :=
  { sectionName := "B", tags := [], color := false, dependencies := [],
    kind := .markdownItem "b" }

def c4_itemA2 : Item :=
  { sectionName := "A", tags := [], color := false, dependencies := [],
    kind := .codeItem "a2" }

/-- Claim C4: starting from an empty assembler, after every sequence of
`register_item` calls `section_order` lists each distinct section name
exactly once, in order of first registration, and every section's bucket
holds exactly the items registered with that section name in registration
order; in particular registering into sections A, B, A yields
`section_order = ["A", "B"]` with both A-items retained in order. -/
theorem C4_register_item_invariants (name proj : String) (deps : List String)
    (items : List Item) :
    ((items.foldl register_item (mkNB name proj deps)).section_order =
      firstOccAux [] (items.map Item.sectionName)) ∧
    (items.foldl register_item (mkNB name proj deps)).section_order.Nodup ∧
    (∀ s, (secLookup (items.foldl register_item (mkNB name proj deps)).sections s).getD [] =
      items.filter (fun x => x.sectionName = s)) ∧
    ([c4_itemA1, c4_itemB, c4_itemA2].foldl register_item
        (mkNB name proj deps)).section_order = ["A", "B"] ∧
    (secLookup ([c4_itemA1, c4_itemB, c4_itemA2].foldl register_item
        (mkNB name proj deps)).sections "A").getD [] = [c4_itemA1, c4_itemA2] := by
  obtain ⟨g1, g2, g3⟩ := registerAll_spec items (mkNB name proj deps) rfl
  obtain ⟨h1, h2, h3⟩ :=
    registerAll_spec [c4_itemA1, c4_itemB, c4_itemA2] (mkNB name proj deps) rfl
  refine ⟨by simpa using g2, ?_, fun s => by simpa using g3 s, ?_, ?_⟩
  · rw [g2]
    simpa using firstOccAux_nodup (items.map Item.sectionName) []
  · rw [h2]
    have hord : (mkNB name proj deps).section_order = [] := rfl
    rw [hord]
    decide
  · rw [h3 "A"]
    have hbkt : (secLookup (mkNB name proj deps).sections "A").getD [] = ([] : List Item) := rfl
    rw [hbkt]
    decide

end Mreports
